import Mathlib

/-!
Verification of the password-strength engine in `src/main.py`.

The Python source is shallowly embedded below.  Pure string scanning
(lexicon containment, regex-style detectors, penalties) is translated to
computable Lean functions over `List Char`; the floating-point entropy
arithmetic is modelled over `ℝ` with `Real.logb`, and the float
`round` is modelled by Mathlib's `round` (ties never arise on reachable
values because `log2` of every reachable pool size is irrational).
Python's regex `.` (which does not match a newline) is modelled
faithfully, as is `$` (end of string, or just before a trailing newline).
Character classes follow the ASCII classes used by the source's regexes.
-/

set_option maxRecDepth 4000

/-- Matches the regex class `[a-z]` used throughout `main.py`. -/
def isLowerAZ (c : Char) : Bool := 'a' ≤ c && c ≤ 'z'

/-- Matches the regex class `[A-Z]`. -/
def isUpperAZ (c : Char) : Bool := 'A' ≤ c && c ≤ 'Z'

/-- Matches the regex class `\d` (ASCII digits). -/
def isDigit09 (c : Char) : Bool := '0' ≤ c && c ≤ '9'

/-- Matches the regex class `\s` (ASCII whitespace). -/
def isSpaceWS (c : Char) : Bool :=
  c == ' ' || c == '\t' || c == '\n' || c == '\r' || c == '\x0b' || c == '\x0c'

/-- Matches the regex class `[^a-zA-Z0-9\s]`: the "symbol" class of `main.py`. -/
def isSymbolChar (c : Char) : Bool :=
  !(isLowerAZ c || isUpperAZ c || isDigit09 c || isSpaceWS c)

/-- The `COMMON_WEAK_WORDS` lexicon from `main.py` (lines 10-14). -/
def COMMON_WEAK_WORDS : List String :=
  ["password", "123456", "qwerty", "admin", "qazwsx", "football", "summer",
   "spring", "welcome", "secure", "secret", "test", "shadow", "master",
   "default", "change", "dropbox", "america", "india", "ganesh", "shahan"]

/-- The `COMPLEX_WEAK_COMBINATIONS` lexicon from `main.py` (lines 18-21). -/
def COMPLEX_WEAK_COMBINATIONS : List String :=
  ["master", "shadow", "dragon", "ninja", "firewall", "dark", "light",
   "ocean", "fire", "secure", "strong", "magic", "power", "happy", "love"]

/-- The `KEYBOARD_PATTERNS` list from `main.py` (lines 25-30). -/
def KEYBOARD_PATTERNS : List String :=
  ["asdfg", "zxcvb", "qwert", "yuiop",
   "12345", "54321", "abcde", "edcba",
   "qaz", "wsx", "edc", "rfv",
   "789", "987", "456", "654", "258", "147"]

/-- Python's `password.lower()` restricted to ASCII, as a character list. -/
def lowerData (s : String) : List Char := s.data.map Char.toLower

/-- Does `w` occur as a prefix of `l`? -/
def startsWith : List Char → List Char → Bool
  | [], _ => true
  | _ :: _, [] => false
  | a :: as, b :: bs => a == b && startsWith as bs

/-- Scans `l` for an occurrence of `w`; when `w` matches at a position, the
predicate `p` is applied to the rest of `l` after that occurrence.  This is
the common shape of every `re.search`-style detector in `main.py`. -/
def occursWith (w : List Char) (p : List Char → Bool) : List Char → Bool
  | [] => startsWith w [] && p []
  | c :: rest =>
      (startsWith w (c :: rest) && p ((c :: rest).drop w.length)) ||
      occursWith w p rest

/-- Python's substring test `w in l`. -/
def containsSub (w : List Char) (l : List Char) : Bool :=
  occursWith w (fun _ => true) l

/-- Appears after a composite word in the regex `word\d+[a-z]+`: one or more
digits followed by a lowercase letter (searched left to right with
backtracking, this is exactly "first char is a digit and the first
non-digit char after the digit run is a lowercase letter"). -/
def lowerAfterDigits : List Char → Bool
  | [] => false
  | c :: rest =>
      if isLowerAZ c then true
      else if isDigit09 c then lowerAfterDigits rest
      else false

/-- The suffix shape required by `word\d+[a-z]+`. -/
def digitsThenLower : List Char → Bool
  | [] => false
  | c :: rest => isDigit09 c && lowerAfterDigits rest

/-- The suffix shape required by `word\d{3,4}$`: the rest of the string is
3 or 4 digits.  Python's `$` also matches just before one trailing
newline, which is modelled by stripping at most one final newline. -/
def digits34AtEnd (t : List Char) : Bool :=
  let u := if t.getLast? = some '\n' then t.dropLast else t
  (u.length == 3 || u.length == 4) && u.all isDigit09

/-- Sub-check (a) of the AI heuristic: some second lexicon word, distinct
from `w1`, such that the direct concatenation occurs in the lowered text
(`main.py` lines 140-147). -/
def matchConcat (w1 : String) (lw : List Char) : Bool :=
  COMPLEX_WEAK_COMBINATIONS.any fun w2 =>
    (w1 != w2) && containsSub (w1.data ++ w2.data) lw

/-- Sub-check (b): `re.search(f"{word1}\d+[a-z]+", password_lower)`
(`main.py` line 150). -/
def matchWordDigitWord (w1 : String) (lw : List Char) : Bool :=
  occursWith w1.data digitsThenLower lw

/-- Sub-check (c): `re.search(f"{word1}\d{3,4}$", password_lower)`
(`main.py` line 156). -/
def matchWordDigitsEnd (w1 : String) (lw : List Char) : Bool :=
  occursWith w1.data digits34AtEnd lw

/-- The V8 AI-heuristic loop of `calculate_modified_score` (lines 139-159):
iterate the composite lexicon; for each word try the concatenation check,
then the word+digits+letters check, then the word+trailing-digits check;
stop at the first word with a match.  Returns the deduction made. -/
def aiLoop : List String → List Char → Nat
  | [], _ => 0
  | w1 :: rest, lw =>
      if matchConcat w1 lw then 30
      else if matchWordDigitWord w1 lw then 20
      else if matchWordDigitsEnd w1 lw then 20
      else aiLoop rest lw

/-- Total deduction made by the V8 AI-heuristic block. -/
def aiPenalty (lw : List Char) : Nat := aiLoop COMPLEX_WEAK_COMBINATIONS lw

/-- Occurrence of the regex `(.{2})\1+` (a repeated 2-character block;
`.` does not match a newline). -/
def hasBlock2 : List Char → Bool
  | a :: b :: c :: d :: rest =>
      (a != '\n' && b != '\n' && a == c && b == d) ||
      hasBlock2 (b :: c :: d :: rest)
  | _ => false

/-- Occurrence of the regex `(.{3})\1+` (a repeated 3-character block). -/
def hasBlock3 : List Char → Bool
  | a :: b :: c :: d :: e :: f :: rest =>
      (a != '\n' && b != '\n' && c != '\n' && a == d && b == e && c == f) ||
      hasBlock3 (b :: c :: d :: e :: f :: rest)
  | _ => false

/-- Occurrence of the regex `(.)\1{2,}` (three or more equal consecutive
non-newline characters). -/
def hasRun3 : List Char → Bool
  | a :: b :: c :: rest =>
      (a != '\n' && a == b && b == c) || hasRun3 (b :: c :: rest)
  | _ => false

/-- Number of leading characters of `l` equal to `c`. -/
def leadCount (c : Char) : List Char → Nat
  | [] => 0
  | d :: rest => if d == c then leadCount c rest + 1 else 0

/-- Fuel-bounded left-to-right scan for matches of `(.)\1{2,}`: at each
position the engine tries to match (the head must not be a newline and at
least two more copies must follow); on a match it greedily consumes the
whole run, otherwise it advances one character.  The fuel only bounds the
iteration count so that the recursion is structural; `scanRunCount`
supplies enough fuel for the whole input. -/
def scanFuel : Nat → List Char → Nat
  | 0, _ => 0
  | _, [] => 0
  | fuel + 1, c :: rest =>
      if c != '\n' && 2 ≤ leadCount c rest then
        1 + scanFuel fuel (rest.dropWhile (fun d => d == c))
      else
        scanFuel fuel rest

/-- The number of matches found by `re.findall(r"(.)\1{2,}", password)`. -/
def scanRunCount (l : List Char) : Nat := scanFuel l.length l

/-- Start of the year regex `(19|20)\d{2}` at the head of the list. -/
def yearStart : List Char → Bool
  | c1 :: c2 :: c3 :: c4 :: _ =>
      ((c1 == '1' && c2 == '9') || (c1 == '2' && c2 == '0')) &&
      isDigit09 c3 && isDigit09 c4
  | _ => false

/-- Occurrence of `(19|20)\d{2}` anywhere. -/
def containsYear : List Char → Bool
  | [] => false
  | c :: rest => yearStart (c :: rest) || containsYear rest

/-- A year token is reachable from here through `.*` (no newline crossed). -/
def yearReachable : List Char → Bool
  | [] => false
  | c :: rest => yearStart (c :: rest) || (c != '\n' && yearReachable rest)

/-- The word `w` is reachable from here through `.*` (no newline crossed). -/
def wordReachable (w : List Char) : List Char → Bool
  | [] => startsWith w []
  | c :: rest => startsWith w (c :: rest) || (c != '\n' && wordReachable w rest)

/-- Occurrence of `word.*((19|20)\d{2})` in the lowered text. -/
def wordThenYear (w : List Char) (l : List Char) : Bool :=
  occursWith w yearReachable l

/-- Occurrence of `((19|20)\d{2}).*word` in the lowered text. -/
def yearThenWord (w : List Char) : List Char → Bool
  | [] => false
  | c :: rest =>
      (yearStart (c :: rest) && wordReachable w ((c :: rest).drop 4)) ||
      yearThenWord w rest

/-- V1/V6 dictionary deduction (lines 125-129): 20 points when some weak
word is a substring of the lowered password. -/
def dict_penalty (s : String) : Nat :=
  if COMMON_WEAK_WORDS.any (fun w => containsSub w.data (lowerData s)) then 20 else 0

/-- V2 keyboard-pattern deduction (lines 132-135). -/
def keyboard_penalty (s : String) : Nat :=
  if KEYBOARD_PATTERNS.any (fun p => containsSub p.data (lowerData s)) then 10 else 0

/-- V3 block-repetition deduction (lines 164-171): 15 for a repeated
2-character block plus 15 for a repeated 3-character block, only checked
when the password is at least 4 characters long. -/
def block_penalty (s : String) : Nat :=
  if 4 ≤ s.length then
    (if hasBlock2 s.data then 15 else 0) + (if hasBlock3 s.data then 15 else 0)
  else 0

/-- Repeated-character deduction (lines 174-176): 10 per `findall` match. -/
def run_penalty (s : String) : Nat := 10 * scanRunCount s.data

/-- V7 predictable-component deduction (lines 180-190). -/
def year_penalty (s : String) : Nat :=
  if containsYear s.data && s.data.any isSymbolChar &&
      COMMON_WEAK_WORDS.any (fun w =>
        wordThenYear w.data (lowerData s) || yearThenWord w.data (lowerData s))
  then 25 else 0

/-- Simple-sequence deduction (lines 193-194). -/
def seq_penalty (s : String) : Nat :=
  if [("123" : String), "abc", "xyz", "qwerty"].any
      (fun p => containsSub p.data (lowerData s))
  then 10 else 0

/-- The total deduction applied by `calculate_modified_score`. -/
def penalties (s : String) : Nat :=
  dict_penalty s + keyboard_penalty s + aiPenalty (lowerData s) +
  block_penalty s + run_penalty s + year_penalty s + seq_penalty s

/-- Embedding of `get_character_pool_size` (`main.py` lines 48-60). -/
def get_character_pool_size (password : String) : Nat :=
  max 1
    ((if password.data.any isLowerAZ then 26 else 0) +
     (if password.data.any isUpperAZ then 26 else 0) +
     (if password.data.any isDigit09 then 10 else 0) +
     (if password.data.any isSymbolChar then 33 else 0))

/-- Embedding of `calculate_entropy_bits` (`main.py` lines 62-73). -/
noncomputable def calculate_entropy_bits (password : String) : ℝ :=
  if password.length = 0 then 0
  else (password.length : ℝ) * Real.logb 2 (get_character_pool_size password)

/-- Embedding of `calculate_modified_score` (`main.py` lines 113-196): the
sequential deductions amount to subtracting `penalties` from the starting
entropy, and the function returns `max(0, round(score))`. -/
noncomputable def calculate_modified_score (password : String) (entropy_bits : ℝ) : ℤ :=
  max 0 (round (entropy_bits - (penalties password : ℝ)))

/-- Formats a nonnegative rational with two decimal places, modelling
Python's `f"{x:.2f}"` (on the values reached here, the rounding never
falls on a tie, so round-to-nearest is exact). -/
def fmt2 (q : ℚ) : String :=
  let n : ℤ := round (q * 100)
  let fp : Nat := (n % 100).toNat
  toString (n / 100) ++ "." ++ (if fp < 10 then "0" ++ toString fp else toString fp)

/-- The `CRACK_SPEED_PER_SECOND` constant of `main.py` (line 34). -/
def CRACK_SPEED_PER_SECOND : ℚ := 10 ^ 10

/-- Entry `millisecond` of the `SECONDS_IN` table (line 36). -/
def secondsInMillisecond : ℚ := 1 / 1000

/-- Entry `minute` of the `SECONDS_IN` table (line 38). -/
def secondsInMinute : ℚ := 60

/-- Entry `hour` of the `SECONDS_IN` table (line 39). -/
def secondsInHour : ℚ := 3600

/-- Entry `day` of the `SECONDS_IN` table (line 40). -/
def secondsInDay : ℚ := 86400

/-- Entry `month` of the `SECONDS_IN` table (line 41, unused by the code). -/
def secondsInMonth : ℚ := 2592000

/-- Entry `year` of the `SECONDS_IN` table (line 42). -/
def secondsInYear : ℚ := 31536000

/-- Entry `century` of the `SECONDS_IN` table (line 43). -/
def secondsInCentury : ℚ := 3153600000

/-- Embedding of `estimate_crack_time` (`main.py` lines 75-110).  The
effective entropy passed in by `get_strength_details` is the integer
produced by `calculate_modified_score`. -/
def estimate_crack_time (entropy_bits : ℤ) : String :=
  if entropy_bits ≤ 0 then "Instantly"
  else
    let seconds : ℚ := 2 ^ entropy_bits / CRACK_SPEED_PER_SECOND
    if seconds < secondsInMillisecond then "Instantly (< 1 ms)"
    else if seconds < 1 then fmt2 (seconds * 1000) ++ " milliseconds"
    else if seconds < secondsInMinute then fmt2 seconds ++ " seconds"
    else if seconds < secondsInHour then fmt2 (seconds / secondsInMinute) ++ " minutes"
    else if seconds < secondsInDay then fmt2 (seconds / secondsInHour) ++ " hours"
    else if seconds < secondsInYear then fmt2 (seconds / secondsInDay) ++ " days"
    else if seconds < secondsInCentury then fmt2 (seconds / secondsInYear) ++ " years"
    else fmt2 (seconds / secondsInCentury) ++ " centuries"

/-- The crack-time estimator exactly as the specification words it: a fixed
rate of `10^10` guesses per second, `seconds = 2^e / 10^10`, and the
bucket thresholds written as literal numbers of seconds. -/
def crackTimeSpec (e : ℤ) : String :=
  if e ≤ 0 then "Instantly"
  else
    let seconds : ℚ := 2 ^ e / 10 ^ 10
    if seconds < 1 / 1000 then "Instantly (< 1 ms)"
    else if seconds < 1 then fmt2 (seconds * 1000) ++ " milliseconds"
    else if seconds < 60 then fmt2 seconds ++ " seconds"
    else if seconds < 3600 then fmt2 (seconds / 60) ++ " minutes"
    else if seconds < 86400 then fmt2 (seconds / 3600) ++ " hours"
    else if seconds < 31536000 then fmt2 (seconds / 86400) ++ " days"
    else if seconds < 3153600000 then fmt2 (seconds / 31536000) ++ " years"
    else fmt2 (seconds / 3153600000) ++ " centuries"

/-- The strength tier chosen by `get_strength_details` (lines 220-234). -/
def strengthOf (e : ℤ) : String :=
  if 65 ≤ e then "Excellent (Uncrackable)"
  else if 51 ≤ e then "Strong"
  else if 35 ≤ e then "Moderate"
  else if 15 ≤ e then "Weak"
  else "Too Weak"

/-- The display color chosen by `get_strength_details` (lines 220-234). -/
def colorOf (e : ℤ) : String :=
  if 65 ≤ e then "#10B981"
  else if 51 ≤ e then "#059669"
  else if 35 ≤ e then "#F59E0B"
  else if 15 ≤ e then "#EF4444"
  else "#B91C1C"

/-- The percentage computed by `get_strength_details` (line 218). -/
def percentOf (e : ℤ) : ℚ := min 100 ((e : ℚ) * 100 / 75)

/-- The tier thresholds exactly as the claim words them (descending). -/
def tierSpec (e : ℤ) : String :=
  if 65 ≤ e then "Excellent (Uncrackable)"
  else if 51 ≤ e then "Strong"
  else if 35 ≤ e then "Moderate"
  else if 15 ≤ e then "Weak"
  else "Too Weak"

/-- The V8 concatenation feedback message (line 266). -/
def msgAiConcat : String :=
  "❌ AI Heuristic (V8): Detects concatenated common words (e.g., \x27masterfirewall\x27). Highly predictable."

/-- The V8 word+digits feedback message (line 271). -/
def msgAiCombo : String :=
  "❌ AI Heuristic (V8): Detects common word combined with short numbers/years (e.g., \x27shadow1990\x27)."

/-- The V1/V6 breach feedback message for a weak word (line 280). -/
def breachMsg (w : String) : String :=
  "❌ Breach Risk (V6): Contains \x27" ++ w ++ "\x27 which is a common dictionary word or breached password."

/-- The generic guessable-pattern warning (line 286). -/
def warnMsg : String :=
  "⚠️ Warning: Contains easily guessable patterns (V2/V3/V7)."

/-- The failing length message (line 250). -/
def lenFailMsg (n : Nat) : String :=
  "❌ Length: Must be at least 10 characters. Currently " ++ toString n ++ "."

/-- The passing length message (line 252). -/
def lenOkMsg (n : Nat) : String :=
  "✅ Length: Good (" ++ toString n ++ " chars)."

/-- One complexity checklist line (lines 255-259). -/
def checkLine (passed : Bool) (k : String) : String :=
  if passed then "✅ Complexity: Includes " ++ k ++ "."
  else "❌ Complexity: Include at least one " ++ k ++ "."

/-- The block-repetition feedback message (line 291). -/
def msgBlocks : String :=
  "❌ Repetition (V3): Contains repeated blocks (e.g., \x27abcabc\x27)."

/-- The run-repetition feedback message (line 294). -/
def msgRuns : String :=
  "⚠️ Repetition: Contains triple or more repetitive characters (e.g., \x27aaa\x27)."

/-- The simple-sequence feedback message (line 297). -/
def msgSeq : String :=
  "⚠️ Warning: Contains simple sequential patterns (\x27123\x27, \x27abc\x27)."

/-- The V8 feedback loop of `get_strength_details` (lines 262-273): same
detectors as the scoring loop, but the two non-concatenation sub-checks
share one message. -/
def aiFeedback : List String → List Char → Option String
  | [], _ => none
  | w1 :: rest, lw =>
      if matchConcat w1 lw then some msgAiConcat
      else if matchWordDigitWord w1 lw || matchWordDigitsEnd w1 lw then some msgAiCombo
      else aiFeedback rest lw

/-- The V1/V6 feedback loop of `get_strength_details` (lines 277-282). -/
def dictFeedback : List String → List Char → Option String
  | [], _ => none
  | w :: rest, lw =>
      if containsSub w.data lw then some (breachMsg w)
      else dictFeedback rest lw

section
open scoped Classical

/-- The feedback list built by `get_strength_details` (lines 238-297), in
the source's append order. -/
noncomputable def feedbackList (password : String) (eff : ℤ) (raw : ℝ) : List String :=
  [if password.length < 10 then lenFailMsg password.length else lenOkMsg password.length] ++
  [checkLine (password.data.any isLowerAZ) ("Lowercase letters (a-z)"),
   checkLine (password.data.any isUpperAZ) ("Uppercase letters (A-Z)"),
   checkLine (password.data.any isDigit09) ("Digits (0-9)"),
   checkLine (password.data.any isSymbolChar) ("Symbols (!@#$)")] ++
  (aiFeedback COMPLEX_WEAK_COMBINATIONS (lowerData password)).toList ++
  (dictFeedback COMMON_WEAK_WORDS (lowerData password)).toList ++
  (if dictFeedback COMMON_WEAK_WORDS (lowerData password) = none ∧
      aiFeedback COMPLEX_WEAK_COMBINATIONS (lowerData password) = none ∧
      (eff : ℝ) < raw
   then [warnMsg] else []) ++
  (if hasBlock2 password.data || hasBlock3 password.data then [msgBlocks] else []) ++
  (if hasRun3 password.data then [msgRuns] else []) ++
  (if [("123" : String), "abc", "xyz", "qwerty"].any
      (fun p => containsSub p.data (lowerData password))
   then [msgSeq] else [])

end

/-- The result structure returned by `get_strength_details`. -/
structure StrengthDetails where
  score : ℤ
  strength : String
  color : String
  percent : ℚ
  time_to_crack : String
  feedback : List String
deriving Repr, DecidableEq

/-- Embedding of `get_strength_details` (`main.py` lines 199-306). -/
noncomputable def get_strength_details (password : String) : StrengthDetails :=
  if password.length = 0 then
    { score := 0, strength := "No Password", color := "#D1D5DB", percent := 0,
      time_to_crack := "N/A",
      feedback := ["Please enter a password to check its strength."] }
  else
    let initial_entropy := calculate_entropy_bits password
    let effective_entropy := calculate_modified_score password initial_entropy
    { score := effective_entropy,
      strength := strengthOf effective_entropy,
      color := colorOf effective_entropy,
      percent := percentOf effective_entropy,
      time_to_crack := estimate_crack_time effective_entropy,
      feedback := feedbackList password effective_entropy initial_entropy }

/-- Pool size exactly as the claim words it: sum the fixed weights
`{lower:26, upper:26, digit:10, symbol:33}` for each class present
(symbol meaning not a letter, digit, or whitespace); if the sum is 0,
return 1. -/
def poolSpecC4 (s : String) : Nat :=
  let total :=
    (if s.data.any isLowerAZ then 26 else 0) +
    (if s.data.any isUpperAZ then 26 else 0) +
    (if s.data.any isDigit09 then 10 else 0) +
    (if s.data.any isSymbolChar then 33 else 0)
  if total = 0 then 1 else total

/-- Two distinct composite-lexicon words concatenated in the lowered
text, at least one of which is also in the weak-word lexicon. -/
def hasWeakConcatPair (s : String) : Bool :=
  COMPLEX_WEAK_COMBINATIONS.any fun w1 =>
    COMPLEX_WEAK_COMBINATIONS.any fun w2 =>
      (w1 != w2) && containsSub (w1.data ++ w2.data) (lowerData s) &&
      (COMMON_WEAK_WORDS.elem w1 || COMMON_WEAK_WORDS.elem w2)

/-- Merges a character into the head of a run-length encoding. -/
def rleCons (c : Char) : List (Char × Nat) → List (Char × Nat)
  | [] => [(c, 1)]
  | (d, n) :: tail => if c == d then (d, n + 1) :: tail else (c, 1) :: (d, n) :: tail

/-- Run-length encoding of a character list. -/
def rle : List Char → List (Char × Nat)
  | [] => []
  | c :: rest => rleCons c (rle rest)

/-- Number of maximal runs of at least 3 identical consecutive characters:
the claim's own notion of a penalized run. -/
def maximalRunCount (l : List Char) : Nat :=
  ((rle l).filter (fun p => 3 ≤ p.snd)).length

/-- Number of maximal runs of at least 3 identical consecutive non-newline
characters: what the regex `(.)\1{2,}` actually counts. -/
def maximalRunCountNoNL (l : List Char) : Nat :=
  ((rle l).filter (fun p => p.fst != '\n' && 3 ≤ p.snd)).length

theorem startsWith_iff (w l : List Char) :
    startsWith w l = true ↔ ∃ t, l = w ++ t := by
  induction w generalizing l with
  | nil => simp [startsWith]
  | cons a as ih =>
    cases l with
    | nil => simp [startsWith]
    | cons b bs =>
      simp only [startsWith, Bool.and_eq_true, beq_iff_eq, ih, List.cons_append,
        List.cons.injEq]
      constructor
      · rintro ⟨rfl, t, rfl⟩; exact ⟨t, rfl, rfl⟩
      · rintro ⟨t, rfl, rfl⟩; exact ⟨rfl, t, rfl⟩

theorem occursWith_iff (w : List Char) (p : List Char → Bool) (l : List Char) :
    occursWith w p l = true ↔ ∃ pre post, l = pre ++ (w ++ post) ∧ p post = true := by
  induction l with
  | nil =>
    simp only [occursWith, Bool.and_eq_true, startsWith_iff]
    constructor
    · rintro ⟨⟨t, ht⟩, hp⟩
      rcases List.append_eq_nil.mp ht.symm with ⟨rfl, rfl⟩
      exact ⟨[], [], by simp, hp⟩
    · rintro ⟨pre, post, h, hp⟩
      rcases List.append_eq_nil.mp h.symm with ⟨rfl, h2⟩
      rcases List.append_eq_nil.mp h2 with ⟨rfl, rfl⟩
      exact ⟨⟨[], rfl⟩, hp⟩
  | cons c rest ih =>
    simp only [occursWith, Bool.or_eq_true, Bool.and_eq_true, startsWith_iff, ih]
    constructor
    · rintro (⟨⟨t, ht⟩, hp⟩ | ⟨pre, post, rfl, hp⟩)
      · refine ⟨[], t, by simpa using ht, ?_⟩
        have : ((c :: rest).drop w.length) = t := by
          rw [ht, List.drop_left]
        rwa [this] at hp
      · exact ⟨c :: pre, post, rfl, hp⟩
    · rintro ⟨pre, post, h, hp⟩
      cases pre with
      | nil =>
        left
        refine ⟨⟨post, by simpa using h⟩, ?_⟩
        have : ((c :: rest).drop w.length) = post := by
          simp only [List.nil_append] at h
          rw [h, List.drop_left]
        rwa [this]
      | cons d pre' =>
        right
        simp only [List.cons_append, List.cons.injEq] at h
        exact ⟨pre', post, h.2, hp⟩

theorem containsSub_iff (w l : List Char) :
    containsSub w l = true ↔ ∃ pre post, l = pre ++ (w ++ post) := by
  simp only [containsSub, occursWith_iff]
  constructor
  · rintro ⟨pre, post, h, -⟩; exact ⟨pre, post, h⟩
  · rintro ⟨pre, post, h⟩; exact ⟨pre, post, h, by simp⟩

theorem containsSub_of_append_left {a b l : List Char}
    (h : containsSub (a ++ b) l = true) : containsSub a l = true := by
  rw [containsSub_iff] at h ⊢
  rcases h with ⟨pre, post, rfl⟩
  exact ⟨pre, b ++ post, by simp⟩

theorem containsSub_of_append_right {a b l : List Char}
    (h : containsSub (a ++ b) l = true) : containsSub b l = true := by
  rw [containsSub_iff] at h ⊢
  rcases h with ⟨pre, post, rfl⟩
  exact ⟨pre ++ a, post, by simp⟩

theorem dropWhile_length_le (p : Char → Bool) (l : List Char) :
    (l.dropWhile p).length ≤ l.length := by
  induction l with
  | nil => simp [List.dropWhile]
  | cons x xs ih =>
    simp only [List.dropWhile, List.length_cons]
    split
    · exact Nat.le_succ_of_le ih
    · exact Nat.le_refl _

/-- Claim C4: for every string the pool size is the sum of the fixed
per-class weights floored at 1, with the stated concrete values, and the
function is total over all strings. -/
theorem pool_size_matches_weights :
    (∀ s : String, get_character_pool_size s = poolSpecC4 s) ∧
    get_character_pool_size ("") = 1 ∧
    get_character_pool_size ("a") = 26 ∧
    get_character_pool_size ("a1") = 36 ∧
    get_character_pool_size ("Aa1!") = 95 := by
  refine ⟨fun s => ?_, by decide, by decide, by decide, by decide⟩
  unfold get_character_pool_size poolSpecC4
  cases s.data.any isLowerAZ <;> cases s.data.any isUpperAZ <;>
    cases s.data.any isDigit09 <;> cases s.data.any isSymbolChar <;> simp

theorem calculate_entropy_bits_nonneg (s : String) : 0 ≤ calculate_entropy_bits s := by
  unfold calculate_entropy_bits
  split
  · exact le_refl 0
  · refine mul_nonneg (by positivity) (Real.logb_nonneg one_lt_two ?_)
    have h1 : 1 ≤ get_character_pool_size s := le_max_left 1 _
    exact_mod_cast h1

/-- Claim C5: raw entropy is 0 on the empty string, `length · log2(pool)`
otherwise, and never negative. -/
theorem entropy_bits_nonneg_and_formula : ∀ s : String,
    0 ≤ calculate_entropy_bits s ∧
    calculate_entropy_bits s =
      (if s.length = 0 then 0
       else (s.length : ℝ) * Real.logb 2 (get_character_pool_size s)) :=
  fun s => ⟨calculate_entropy_bits_nonneg s, rfl⟩

/-- Claim C7: the crack-time estimator returns "Instantly" for
nonpositive effective entropy and otherwise buckets
`2^e / 10^10` seconds by the claimed thresholds, dividing by the unit
length and formatting with two decimals plus the unit label. -/
theorem crack_time_matches_thresholds :
    ∀ e : ℤ, estimate_crack_time e = crackTimeSpec e := fun _ => rfl

/-- Claim C8: the tier thresholds are 65/51/35/15 descending and
`percent = min(100, e·100/75)` lies in `[0, 100]` for the nonnegative
effective entropies the pipeline produces. -/
theorem strength_tier_and_percent :
    ∀ e : ℤ, strengthOf e = tierSpec e ∧
      percentOf e = min 100 ((e : ℚ) * 100 / 75) ∧
      percentOf e ≤ 100 ∧ (0 ≤ e → 0 ≤ percentOf e) := by
  intro e
  refine ⟨rfl, rfl, min_le_left _ _, fun h => ?_⟩
  unfold percentOf
  refine le_min (by norm_num) ?_
  have he : (0 : ℚ) ≤ (e : ℚ) := by exact_mod_cast h
  positivity

/-- Witness for `strength_tier_and_percent` at effective entropy 40. -/
theorem strength_tier_and_percent_witness :
    (0 : ℤ) ≤ 40 ∧ 0 ≤ percentOf 40 :=
  ⟨by decide, (strength_tier_and_percent 40).2.2.2 (by decide)⟩

/-- Claim C9: the empty input returns the distinguished zero-state
without running the pipeline, with exactly one feedback line. -/
theorem empty_password_zero_state :
    get_strength_details ("") =
      { score := 0, strength := "No Password", color := "#D1D5DB", percent := 0,
        time_to_crack := "N/A",
        feedback := ["Please enter a password to check its strength."] } ∧
    (get_strength_details ("")).feedback.length = 1 :=
  ⟨rfl, rfl⟩

theorem logb2_lt_div {x : ℝ} (p q : ℕ) (hx : 0 < x) (hq : 0 < q)
    (h : x ^ q < 2 ^ p) : Real.logb 2 x < (p : ℝ) / q := by
  have h1 : Real.logb 2 (x ^ q) < Real.logb 2 (2 ^ p) :=
    Real.logb_lt_logb one_lt_two (pow_pos hx q) h
  rw [Real.logb_pow, Real.logb_pow, Real.logb_self_eq_one one_lt_two] at h1
  rw [lt_div_iff₀ (by exact_mod_cast hq)]
  nlinarith [h1]

theorem div_lt_logb2 {x : ℝ} (p q : ℕ) (_hx : 0 < x) (hq : 0 < q)
    (h : 2 ^ p < x ^ q) : (p : ℝ) / q < Real.logb 2 x := by
  have h1 : Real.logb 2 (2 ^ p) < Real.logb 2 (x ^ q) :=
    Real.logb_lt_logb one_lt_two (pow_pos two_pos p) h
  rw [Real.logb_pow, Real.logb_pow, Real.logb_self_eq_one one_lt_two] at h1
  rw [div_lt_iff₀ (by exact_mod_cast hq)]
  nlinarith [h1]

theorem logb26_gt : (4.5 : ℝ) < Real.logb 2 26 := by
  have h := div_lt_logb2 (x := 26) 9 2 (by norm_num) (by norm_num) (by norm_num)
  norm_num at h
  linarith

theorem logb26_lt5 : Real.logb 2 26 < 5 := by
  have h := logb2_lt_div (x := 26) 5 1 (by norm_num) (by norm_num) (by norm_num)
  norm_num at h
  linarith

theorem logb26_lt475 : Real.logb 2 26 < 4.75 := by
  have h := logb2_lt_div (x := 26) 19 4 (by norm_num) (by norm_num) (by norm_num)
  norm_num at h
  linarith

theorem entropy_a : calculate_entropy_bits ("a") = Real.logb 2 26 := by
  have h1 : ("a" : String).length = 1 := by decide
  have h2 : get_character_pool_size ("a") = 26 := by decide
  unfold calculate_entropy_bits
  rw [h1, h2]
  norm_num

theorem entropy_ab : calculate_entropy_bits ("ab") = 2 * Real.logb 2 26 := by
  have h1 : ("ab" : String).length = 2 := by decide
  have h2 : get_character_pool_size ("ab") = 26 := by decide
  unfold calculate_entropy_bits
  rw [h1, h2]
  norm_num

theorem round_eq_of_bounds {x : ℝ} {n : ℤ} (h1 : (n : ℝ) ≤ x + 1 / 2)
    (h2 : x + 1 / 2 < n + 1) : round x = n := by
  rw [round_eq]
  exact Int.floor_eq_iff.mpr ⟨h1, h2⟩

theorem score_a : calculate_modified_score ("a") (calculate_entropy_bits ("a")) = 5 := by
  have hp : penalties ("a") = 0 := by decide
  unfold calculate_modified_score
  rw [hp, entropy_a]
  have h5 : round (Real.logb 2 26 - ((0 : ℕ) : ℝ)) = 5 := by
    apply round_eq_of_bounds <;> push_cast <;>
      [linarith [logb26_gt]; linarith [logb26_lt5]]
  rw [h5]
  decide

/-- Claim C1 is false as stated: on input "a" no penalty fires, the raw
entropy is `log2 26 ≈ 4.70` bits, and Python's `round` rounds it up to 5,
so the effective entropy exceeds the raw entropy. -/
theorem effective_le_raw_cex :
    ¬(((calculate_modified_score ("a") (calculate_entropy_bits ("a"))) : ℝ) ≤
        calculate_entropy_bits ("a")) := by
  rw [score_a, entropy_a]
  push_cast
  linarith [logb26_lt5]

/-- Claim C1 amended: the effective entropy is always nonnegative and at
most the raw entropy rounded to the nearest integer (so it can exceed the
raw entropy itself by strictly less than one half). -/
theorem effective_nonneg_le_rounded_raw : ∀ s : String,
    0 ≤ calculate_modified_score s (calculate_entropy_bits s) ∧
    calculate_modified_score s (calculate_entropy_bits s) ≤
      round (calculate_entropy_bits s) := by
  intro s
  have he0 : 0 ≤ calculate_entropy_bits s := calculate_entropy_bits_nonneg s
  unfold calculate_modified_score
  constructor
  · exact le_max_left 0 _
  · refine max_le ?_ ?_
    · rw [round_eq]
      exact Int.le_floor.mpr (by push_cast; linarith)
    · rw [round_eq, round_eq]
      apply Int.floor_mono
      have : (0 : ℝ) ≤ (penalties s : ℝ) := Nat.cast_nonneg _
      linarith

theorem aiLoop_cases (l : List String) (lw : List Char) :
    aiLoop l lw = 0 ∨ aiLoop l lw = 20 ∨ aiLoop l lw = 30 := by
  induction l with
  | nil => left; rfl
  | cons w rest ih =>
    unfold aiLoop
    split_ifs <;> simp [ih]

theorem aiLoop_of_concat : ∀ (l : List String) (lw : List Char),
    (∃ w1 ∈ l, matchConcat w1 lw = true) →
    aiLoop l lw = 20 ∨ aiLoop l lw = 30 := by
  intro l lw
  induction l with
  | nil => rintro ⟨w, hw, -⟩; simp at hw
  | cons w rest ih =>
    rintro ⟨w1, hmem, hmA⟩
    unfold aiLoop
    split_ifs with h1 h2 h3
    · right; rfl
    · left; rfl
    · left; rfl
    · apply ih
      rcases List.mem_cons.mp hmem with rfl | hmem'
      · exact absurd hmA h1
      · exact ⟨w1, hmem', hmA⟩

theorem aiLoop_eq_30 : ∀ (l : List String) (lw : List Char),
    (∃ w1 ∈ l, matchConcat w1 lw = true) →
    (∀ w1 ∈ l, matchWordDigitWord w1 lw = false ∧ matchWordDigitsEnd w1 lw = false) →
    aiLoop l lw = 30 := by
  intro l lw
  induction l with
  | nil => rintro ⟨w, hw, -⟩ -; simp at hw
  | cons w rest ih =>
    rintro ⟨w1, hmem, hmA⟩ hBC
    unfold aiLoop
    split_ifs with h1 h2 h3
    · rfl
    · exact absurd h2 (by simp [(hBC w (by simp)).1])
    · exact absurd h3 (by simp [(hBC w (by simp)).2])
    · apply ih
      · rcases List.mem_cons.mp hmem with rfl | hmem'
        · exact absurd hmA h1
        · exact ⟨w1, hmem', hmA⟩
      · intro w2 hw2
        exact hBC w2 (List.mem_cons_of_mem _ hw2)

/-- Claim C2 is false as stated: in "master1ashadowdragon" the
concatenation sub-check (a) matches (for "shadow"+"dragon") and the
word+digits+letters sub-check (b) also matches (for "master"), but the
loop visits "master" first and applies the −20 penalty, not −30. -/
theorem ai_severity_order_cex :
    (∃ w1 ∈ COMPLEX_WEAK_COMBINATIONS,
        matchConcat w1 (lowerData ("master1ashadowdragon")) = true) ∧
    (∃ w1 ∈ COMPLEX_WEAK_COMBINATIONS,
        matchWordDigitWord w1 (lowerData ("master1ashadowdragon")) = true) ∧
    aiPenalty (lowerData ("master1ashadowdragon")) = 20 :=
  ⟨by decide, by decide, by decide⟩

/-- Claim C2 amended: at most one of the three sub-checks fires per
evaluation (the deduction is 0, 20 or 30); sub-check (a) is tried before
(b) and (c) only within one lexicon word, so −30 is guaranteed whenever
some concatenation matches and no lexicon word matches (b) or (c); but a
(b)/(c) match on an earlier lexicon word preempts a concatenation match
on a later word. -/
theorem ai_subchecks_once_and_order : ∀ s : String,
    (aiPenalty (lowerData s) = 0 ∨ aiPenalty (lowerData s) = 20 ∨
     aiPenalty (lowerData s) = 30) ∧
    ((∃ w1 ∈ COMPLEX_WEAK_COMBINATIONS, matchConcat w1 (lowerData s) = true) →
     (∀ w1 ∈ COMPLEX_WEAK_COMBINATIONS,
        matchWordDigitWord w1 (lowerData s) = false ∧
        matchWordDigitsEnd w1 (lowerData s) = false) →
     aiPenalty (lowerData s) = 30) :=
  fun s => ⟨aiLoop_cases COMPLEX_WEAK_COMBINATIONS (lowerData s),
    fun hA hBC => aiLoop_eq_30 COMPLEX_WEAK_COMBINATIONS (lowerData s) hA hBC⟩

/-- Witness for `ai_subchecks_once_and_order` on "dragonninja". -/
theorem ai_subchecks_once_and_order_witness :
    (∃ w1 ∈ COMPLEX_WEAK_COMBINATIONS,
        matchConcat w1 (lowerData ("dragonninja")) = true) ∧
    (∀ w1 ∈ COMPLEX_WEAK_COMBINATIONS,
        matchWordDigitWord w1 (lowerData ("dragonninja")) = false ∧
        matchWordDigitsEnd w1 (lowerData ("dragonninja")) = false) ∧
    aiPenalty (lowerData ("dragonninja")) = 30 :=
  ⟨by decide, by decide,
   (ai_subchecks_once_and_order ("dragonninja")).2 (by decide) (by decide)⟩

/-- Claim C10 is false as stated: "master1xshadowdragon" contains the
concatenation "shadowdragon" with "shadow" in both lexicons, yet the AI
detector deducts 20 (the earlier word "master" matches sub-check (b)
first), so the total deduction is 40, not at least 50. -/
theorem lexicon_overlap_cex :
    hasWeakConcatPair ("master1xshadowdragon") = true ∧
    aiPenalty (lowerData ("master1xshadowdragon")) = 20 ∧
    penalties ("master1xshadowdragon") = 40 :=
  ⟨by decide, by decide, by decide⟩

/-- Claim C10 amended: the two lexicons overlap ("master", "shadow" and
"secure" are in both), and any input containing two distinct
composite-lexicon words concatenated directly, at least one of which is
also a weak-lexicon word, receives both the dictionary penalty of 20 and
an AI penalty of 20 or 30 — at least 40 points in total (30 is not
guaranteed, since an earlier lexicon word can match sub-check (b)/(c)
first). -/
theorem lexicon_overlap_double_penalty :
    ((("master" : String) ∈ COMMON_WEAK_WORDS ∧
      ("master" : String) ∈ COMPLEX_WEAK_COMBINATIONS) ∧
     (("shadow" : String) ∈ COMMON_WEAK_WORDS ∧
      ("shadow" : String) ∈ COMPLEX_WEAK_COMBINATIONS) ∧
     (("secure" : String) ∈ COMMON_WEAK_WORDS ∧
      ("secure" : String) ∈ COMPLEX_WEAK_COMBINATIONS)) ∧
    ∀ s : String, hasWeakConcatPair s = true →
      dict_penalty s = 20 ∧
      (aiPenalty (lowerData s) = 20 ∨ aiPenalty (lowerData s) = 30) ∧
      40 ≤ penalties s := by
  refine ⟨⟨⟨by decide, by decide⟩, ⟨by decide, by decide⟩, ⟨by decide, by decide⟩⟩, ?_⟩
  intro s h
  rw [hasWeakConcatPair, List.any_eq_true] at h
  obtain ⟨w1, hw1mem, h1⟩ := h
  rw [List.any_eq_true] at h1
  obtain ⟨w2, hw2mem, h2⟩ := h1
  rw [Bool.and_eq_true, Bool.and_eq_true, Bool.or_eq_true] at h2
  obtain ⟨⟨hne, hsub⟩, hweak⟩ := h2
  have hdictAny : COMMON_WEAK_WORDS.any (fun w => containsSub w.data (lowerData s)) = true := by
    rw [List.any_eq_true]
    rcases hweak with hw | hw
    · exact ⟨w1, List.mem_of_elem_eq_true hw, containsSub_of_append_left hsub⟩
    · exact ⟨w2, List.mem_of_elem_eq_true hw, containsSub_of_append_right hsub⟩
  have hdict : dict_penalty s = 20 := by rw [dict_penalty, if_pos hdictAny]
  have hai : aiPenalty (lowerData s) = 20 ∨ aiPenalty (lowerData s) = 30 := by
    apply aiLoop_of_concat
    refine ⟨w1, hw1mem, ?_⟩
    rw [matchConcat, List.any_eq_true]
    exact ⟨w2, hw2mem, by rw [Bool.and_eq_true]; exact ⟨hne, hsub⟩⟩
  refine ⟨hdict, hai, ?_⟩
  have hp : penalties s =
      dict_penalty s + keyboard_penalty s + aiPenalty (lowerData s) +
      block_penalty s + run_penalty s + year_penalty s + seq_penalty s := rfl
  omega

/-- Witness for `lexicon_overlap_double_penalty` on "shadowmaster". -/
theorem lexicon_overlap_double_penalty_witness :
    hasWeakConcatPair ("shadowmaster") = true ∧
    (dict_penalty ("shadowmaster") = 20 ∧
     (aiPenalty (lowerData ("shadowmaster")) = 20 ∨
      aiPenalty (lowerData ("shadowmaster")) = 30) ∧
     40 ≤ penalties ("shadowmaster")) :=
  ⟨by decide, lexicon_overlap_double_penalty.2 ("shadowmaster") (by decide)⟩

theorem rle_head : ∀ (l : List Char) (d : Char) (m : Nat) (tail : List (Char × Nat)),
    rle l = (d, m) :: tail → l.head? = some d := by
  intro l
  induction l with
  | nil => intro d m tail h; simp [rle] at h
  | cons c rest ih =>
    intro d m tail h
    simp only [rle] at h
    cases hr : rle rest with
    | nil =>
      rw [hr] at h
      simp only [rleCons, List.cons.injEq, Prod.mk.injEq] at h
      simp [h.1.1]
    | cons p tl =>
      obtain ⟨e, k⟩ := p
      rw [hr] at h
      simp only [rleCons] at h
      by_cases hc : (c == e) = true
      · rw [if_pos hc] at h
        simp only [List.cons.injEq, Prod.mk.injEq] at h
        have hce : c = e := eq_of_beq hc
        simp [hce, h.1.1]
      · rw [if_neg hc] at h
        simp only [List.cons.injEq, Prod.mk.injEq] at h
        simp [h.1.1]

theorem rle_replicate_append (c : Char) : ∀ (n : Nat) (rest : List Char),
    rest.head? ≠ some c →
    rle (List.replicate (n + 1) c ++ rest) = (c, n + 1) :: rle rest := by
  intro n
  induction n with
  | zero =>
    intro rest hne
    have h1 : List.replicate (0 + 1) c ++ rest = c :: rest := by simp
    rw [h1]
    show rleCons c (rle rest) = (c, 0 + 1) :: rle rest
    cases hr : rle rest with
    | nil => simp [rleCons]
    | cons p tail =>
      obtain ⟨d, m⟩ := p
      have hd : rest.head? = some d := rle_head rest d m tail hr
      have hcd : ¬((c == d) = true) := fun hb => hne (by rw [hd, eq_of_beq hb])
      simp [rleCons, hcd]
  | succ n ih =>
    intro rest hne
    have hih := ih rest hne
    have hstep : List.replicate (n + 1 + 1) c ++ rest =
        c :: (List.replicate (n + 1) c ++ rest) := by
      simp [List.replicate_succ]
    rw [hstep]
    show rleCons c (rle (List.replicate (n + 1) c ++ rest)) = _
    rw [hih]
    simp only [rleCons]
    rw [if_pos (beq_self_eq_true c)]

theorem leadCount_zero_head (c : Char) (l : List Char)
    (h : leadCount c l = 0) : l.head? ≠ some c := by
  cases l with
  | nil => simp
  | cons d rest =>
    simp only [leadCount] at h
    split at h
    · omega
    · rename_i hd
      simp only [List.head?]
      intro hc
      injection hc with hc
      exact hd (by rw [hc]; exact beq_self_eq_true c)

theorem head_split (c : Char) (l : List Char) :
    l = List.replicate (leadCount c l) c ++ l.dropWhile (fun d => d == c) := by
  induction l with
  | nil => simp [leadCount]
  | cons d rest ih =>
    by_cases h : (d == c) = true
    · have hd : d = c := eq_of_beq h
      subst hd
      rw [leadCount, if_pos h]
      simp only [List.replicate_succ, List.cons_append, List.dropWhile_cons, h, if_true]
      exact congrArg (d :: ·) ih
    · rw [leadCount, if_neg h]
      simp [List.dropWhile_cons, h]

theorem dropWhile_head_ne (c : Char) (l : List Char) :
    (l.dropWhile (fun d => d == c)).head? ≠ some c := by
  induction l with
  | nil => simp
  | cons d rest ih =>
    rw [List.dropWhile_cons]
    split
    · exact ih
    · rename_i h
      simp only [List.head?]
      intro hc
      injection hc with hc
      exact h (by rw [hc]; exact beq_self_eq_true c)

theorem maximalRunCountNoNL_cons (c : Char) (rest : List Char) :
    maximalRunCountNoNL (c :: rest) =
      (if c ≠ '\n' ∧ 2 ≤ leadCount c rest then 1 else 0) +
      maximalRunCountNoNL (rest.dropWhile (fun d => d == c)) := by
  have hne := dropWhile_head_ne c rest
  have hcons : c :: rest =
      List.replicate (leadCount c rest + 1) c ++ rest.dropWhile (fun d => d == c) := by
    conv_lhs => rw [head_split c rest]
    simp [List.replicate_succ]
  unfold maximalRunCountNoNL
  rw [hcons, rle_replicate_append c (leadCount c rest) _ hne, List.filter_cons]
  split
  · rename_i hb
    simp only [bne_iff_ne, ne_eq, Bool.and_eq_true, decide_eq_true_eq] at hb
    rw [if_pos ⟨hb.1, by omega⟩, List.length_cons]
    omega
  · rename_i hb
    simp only [bne_iff_ne, ne_eq, Bool.and_eq_true, decide_eq_true_eq, not_and,
      not_le] at hb
    rw [if_neg (fun hcontra => by have := hb hcontra.1; omega)]
    omega

theorem maximalRunCountNoNL_short (c : Char) (rest : List Char)
    (h : ¬(c ≠ '\n' ∧ 2 ≤ leadCount c rest)) :
    maximalRunCountNoNL (c :: rest) = maximalRunCountNoNL rest := by
  rw [maximalRunCountNoNL_cons, if_neg h, Nat.zero_add]
  cases hk : leadCount c rest with
  | zero =>
    have hdw : rest.dropWhile (fun d => d == c) = rest := by
      conv_rhs => rw [head_split c rest]
      rw [hk]
      simp
    rw [hdw]
  | succ k =>
    rw [hk] at h
    have hsplit := head_split c rest
    rw [hk] at hsplit
    have hne := dropWhile_head_ne c rest
    have hrw : maximalRunCountNoNL rest =
        maximalRunCountNoNL (rest.dropWhile (fun d => d == c)) := by
      conv_lhs => rw [hsplit]
      unfold maximalRunCountNoNL
      rw [rle_replicate_append c k _ hne, List.filter_cons]
      split
      · rename_i hb
        simp only [bne_iff_ne, ne_eq, Bool.and_eq_true, decide_eq_true_eq] at hb
        exact absurd ⟨hb.1, by omega⟩ h
      · rfl
    rw [hrw]

theorem scanFuel_counts_runs : ∀ fuel : Nat, ∀ l : List Char,
    l.length ≤ fuel → scanFuel fuel l = maximalRunCountNoNL l := by
  intro fuel
  induction fuel with
  | zero =>
    intro l hl
    have : l = [] := List.length_eq_zero.mp (Nat.le_zero.mp hl)
    subst this
    simp [scanFuel, maximalRunCountNoNL, rle]
  | succ fuel ih =>
    intro l hl
    cases l with
    | nil => simp [scanFuel, maximalRunCountNoNL, rle]
    | cons c rest =>
      simp only [scanFuel]
      have hrest : rest.length ≤ fuel := by
        simpa using Nat.le_of_succ_le_succ (by simpa using hl)
      by_cases hcond : (c != '\n' && 2 ≤ leadCount c rest) = true
      · rw [if_pos hcond]
        have h1 : (rest.dropWhile (fun d => d == c)).length ≤ fuel :=
          le_trans (dropWhile_length_le _ _) hrest
        rw [ih _ h1, maximalRunCountNoNL_cons]
        have hp : c ≠ '\n' ∧ 2 ≤ leadCount c rest := by
          simpa only [Bool.and_eq_true, bne_iff_ne, ne_eq, decide_eq_true_eq] using hcond
        rw [if_pos hp]
      · rw [if_neg hcond]
        rw [ih _ hrest]
        have hp : ¬(c ≠ '\n' ∧ 2 ≤ leadCount c rest) := by
          intro hcontra
          apply hcond
          simp only [Bool.and_eq_true, bne_iff_ne, ne_eq, decide_eq_true_eq]
          exact hcontra
        rw [maximalRunCountNoNL_short c rest hp]

/-- Claim C6 is false as stated: "\n\n\n" is one maximal run of three
identical characters, but the regex `.` used by the detector does not
match a newline, so no deduction at all is made. -/
theorem run_repetition_cex :
    maximalRunCount (String.data ("\n\n\n")) = 1 ∧
    run_penalty ("\n\n\n") = 0 ∧ penalties ("\n\n\n") = 0 :=
  ⟨by decide, by decide, by decide⟩

/-- Claim C6 amended: the detector subtracts exactly 10 points per
maximal run of at least 3 identical consecutive non-newline characters
(multiple distinct runs each penalized). -/
theorem run_repetition_per_maximal_run : ∀ s : String,
    run_penalty s = 10 * maximalRunCountNoNL s.data := by
  intro s
  unfold run_penalty scanRunCount
  rw [scanFuel_counts_runs s.data.length s.data (le_refl _)]

theorem warn_head : warnMsg.data.head? = some '⚠' := rfl

theorem warn_ne_of_head {s : String} {c : Char} (hc : s.data.head? = some c)
    (hne : c ≠ '⚠') : warnMsg ≠ s := by
  intro e
  rw [← e, warn_head] at hc
  injection hc with hc
  exact hne hc.symm

theorem warn_ne_lenFail (n : Nat) : warnMsg ≠ lenFailMsg n := by
  refine warn_ne_of_head (c := '❌') ?_ (by decide)
  unfold lenFailMsg
  rw [String.data_append, String.data_append]
  rfl

theorem warn_ne_lenOk (n : Nat) : warnMsg ≠ lenOkMsg n := by
  refine warn_ne_of_head (c := '✅') ?_ (by decide)
  unfold lenOkMsg
  rw [String.data_append, String.data_append]
  rfl

theorem warn_ne_check (b : Bool) (k : String) : warnMsg ≠ checkLine b k := by
  cases b
  · refine warn_ne_of_head (c := '❌') ?_ (by decide)
    show ((("❌ Complexity: Include at least one " : String) ++ k) ++ ".").data.head? = _
    rw [String.data_append, String.data_append]
    rfl
  · refine warn_ne_of_head (c := '✅') ?_ (by decide)
    show ((("✅ Complexity: Includes " : String) ++ k) ++ ".").data.head? = _
    rw [String.data_append, String.data_append]
    rfl

theorem warn_ne_breach (w : String) : warnMsg ≠ breachMsg w := by
  refine warn_ne_of_head (c := '❌') ?_ (by decide)
  unfold breachMsg
  rw [String.data_append, String.data_append]
  rfl

theorem aiFeedback_some : ∀ (l : List String) (lw : List Char) (m : String),
    aiFeedback l lw = some m → m = msgAiConcat ∨ m = msgAiCombo := by
  intro l lw
  induction l with
  | nil => intro m h; simp [aiFeedback] at h
  | cons w rest ih =>
    intro m h
    unfold aiFeedback at h
    split_ifs at h with h1 h2
    · left; injection h with h; exact h.symm
    · right; injection h with h; exact h.symm
    · exact ih m h

theorem dictFeedback_some : ∀ (l : List String) (lw : List Char) (m : String),
    dictFeedback l lw = some m → ∃ w ∈ l, m = breachMsg w := by
  intro l lw
  induction l with
  | nil => intro m h; simp [dictFeedback] at h
  | cons w rest ih =>
    intro m h
    unfold dictFeedback at h
    split_ifs at h with h1
    · injection h with h
      exact ⟨w, by simp, h.symm⟩
    · obtain ⟨w', hw', hm⟩ := ih m h
      exact ⟨w', List.mem_cons_of_mem _ hw', hm⟩

theorem aiFeedback_ne_some_warn (l : List String) (lw : List Char) :
    aiFeedback l lw ≠ some warnMsg := by
  intro h
  rcases aiFeedback_some l lw _ h with h1 | h1 <;> revert h1 <;> decide

theorem dictFeedback_ne_some_warn (l : List String) (lw : List Char) :
    dictFeedback l lw ≠ some warnMsg := by
  intro h
  obtain ⟨w, -, hm⟩ := dictFeedback_some l lw _ h
  exact warn_ne_breach w hm

theorem dictFeedback_none_iff : ∀ (l : List String) (lw : List Char),
    dictFeedback l lw = none ↔ l.any (fun w => containsSub w.data lw) = false := by
  intro l lw
  induction l with
  | nil => simp [dictFeedback]
  | cons w rest ih =>
    unfold dictFeedback
    split_ifs with h1 <;> simp [List.any_cons, h1, ih]

theorem aiFeedback_none_iff_aiLoop : ∀ (l : List String) (lw : List Char),
    aiFeedback l lw = none ↔ aiLoop l lw = 0 := by
  intro l lw
  induction l with
  | nil => simp [aiFeedback, aiLoop]
  | cons w rest ih =>
    unfold aiFeedback aiLoop
    split_ifs <;> simp_all

theorem dict_penalty_zero_iff_feedback_none (s : String) :
    dict_penalty s = 0 ↔ dictFeedback COMMON_WEAK_WORDS (lowerData s) = none := by
  rw [dictFeedback_none_iff]
  unfold dict_penalty
  split_ifs with h
  · simp [h]
  · simp only [Bool.not_eq_true] at h
    simp [h]

theorem ai_penalty_zero_iff_feedback_none (s : String) :
    aiPenalty (lowerData s) = 0 ↔
      aiFeedback COMPLEX_WEAK_COMBINATIONS (lowerData s) = none :=
  (aiFeedback_none_iff_aiLoop COMPLEX_WEAK_COMBINATIONS (lowerData s)).symm

theorem mem_ite_nil {p : Prop} [Decidable p] (a x : String) :
    (a ∈ (if p then [x] else [])) ↔ p ∧ a = x := by
  split <;> rename_i h <;> simp [h]

theorem warn_mem_feedbackList (password : String) (eff : ℤ) (raw : ℝ) :
    warnMsg ∈ feedbackList password eff raw ↔
      (dictFeedback COMMON_WEAK_WORDS (lowerData password) = none ∧
       aiFeedback COMPLEX_WEAK_COMBINATIONS (lowerData password) = none ∧
       (eff : ℝ) < raw) := by
  have hlenne : ¬(warnMsg =
      (if password.length < 10 then lenFailMsg password.length
       else lenOkMsg password.length)) := by
    split
    · exact warn_ne_lenFail _
    · exact warn_ne_lenOk _
  have hai := aiFeedback_ne_some_warn COMPLEX_WEAK_COMBINATIONS (lowerData password)
  have hdict := dictFeedback_ne_some_warn COMMON_WEAK_WORDS (lowerData password)
  simp only [feedbackList, List.mem_append, List.mem_singleton, List.mem_cons,
    List.not_mem_nil, Option.mem_toList, Option.mem_def, mem_ite_nil,
    hlenne, hai, hdict, warn_ne_check, or_false, false_or,
    show (warnMsg = msgBlocks) = False from eq_false (by decide),
    show (warnMsg = msgRuns) = False from eq_false (by decide),
    show (warnMsg = msgSeq) = False from eq_false (by decide),
    and_true, and_false]

theorem length_zero_iff (s : String) : s.length = 0 ↔ s = "" := by
  cases s with
  | mk data =>
    constructor
    · intro h
      have hd : data.length = 0 := h
      rw [List.length_eq_zero] at hd
      rw [hd]
    · intro h
      rw [h]
      rfl

theorem gsd_feedback (s : String) (h : s ≠ "") :
    (get_strength_details s).feedback =
      feedbackList s (calculate_modified_score s (calculate_entropy_bits s))
        (calculate_entropy_bits s) := by
  have hlen : ¬(s.length = 0) := fun h0 => h ((length_zero_iff s).mp h0)
  unfold get_strength_details
  rw [if_neg hlen]

/-- Claim C3 amended: the generic guessable-pattern warning is appended
exactly when no breach message and no AI message fired and the effective
entropy is strictly below the raw entropy; but that condition does not
imply that a penalty fired — rounding the raw entropy down can trigger
it on a penalty-free input. -/
theorem guessable_warning_iff : ∀ s : String, s ≠ "" →
    (warnMsg ∈ (get_strength_details s).feedback ↔
      (dict_penalty s = 0 ∧ aiPenalty (lowerData s) = 0 ∧
       ((calculate_modified_score s (calculate_entropy_bits s) : ℝ) <
        calculate_entropy_bits s))) := by
  intro s hs
  rw [gsd_feedback s hs, warn_mem_feedbackList,
    ← dict_penalty_zero_iff_feedback_none, ← ai_penalty_zero_iff_feedback_none]

/-- Witness for `guessable_warning_iff` at the input "ab". -/
theorem guessable_warning_iff_witness :
    ("ab" : String) ≠ "" ∧
    (warnMsg ∈ (get_strength_details ("ab")).feedback ↔
      (dict_penalty ("ab") = 0 ∧ aiPenalty (lowerData ("ab")) = 0 ∧
       ((calculate_modified_score ("ab") (calculate_entropy_bits ("ab")) : ℝ) <
        calculate_entropy_bits ("ab")))) :=
  ⟨by decide, guessable_warning_iff ("ab") (by decide)⟩

theorem score_ab :
    calculate_modified_score ("ab") (calculate_entropy_bits ("ab")) = 9 := by
  have hp : penalties ("ab") = 0 := by decide
  unfold calculate_modified_score
  rw [hp, entropy_ab]
  have h9 : round (2 * Real.logb 2 26 - ((0 : ℕ) : ℝ)) = 9 := by
    apply round_eq_of_bounds <;> push_cast <;>
      [linarith [logb26_gt]; linarith [logb26_lt475]]
  rw [h9]
  decide

/-- Claim C3 is false in its second half: on the input "ab" no penalty
fires at all (the deduction total is 0), yet the effective entropy
`round(2·log2 26) = 9` is strictly below the raw entropy `≈ 9.40`, so the
generic guessable-pattern warning is emitted anyway. -/
theorem guessable_warning_cex :
    warnMsg ∈ (get_strength_details ("ab")).feedback ∧ penalties ("ab") = 0 := by
  refine ⟨?_, by decide⟩
  rw [gsd_feedback ("ab") (by decide), warn_mem_feedbackList]
  refine ⟨by decide, by decide, ?_⟩
  rw [score_ab, entropy_ab]
  push_cast
  linarith [logb26_gt]
